import Mathlib

/-!
Verification of the capture/correlation engine of `game-of-domains /
crossing-the-narrow-sea` against its natural-language specification.

The development shallowly embeds the TypeScript sources:

* `sqlite.ts` — the Event Store: the three event tables (`source_inits`,
  `destination_successes`, `source_acks`) are modelled as lists of row
  structures, the `INSERT .. ON CONFLICT .. DO UPDATE` statements as
  key-directed list updates, and `scan_progress` as a `Chain → Option Nat`
  map with the `MAX(old, new)` conflict rule.
* `match.ts` — the Correlator: the `d2cSql`/`c2dSql` LEFT JOINs are modelled
  as a flat-map join over the row lists, and `buildIterator` as a
  `filterMap` over the joined rows.
* `scan-runner.ts` — the Block Scanner: the round-robin worker loop and the
  flag-array / commit-cursor protocol (`advanceCommit`).
* `event-utils.ts` (guarded variant) — `processXdmEvents`, `asNumber`,
  `asString`, `extractAmountFromCall` over a small model of the JavaScript
  values the polkadot codec hands to them.
* `chain.ts` — the two `getEventsAt` segmented-retrieval variants.
-/

/-! ## Event Store rows (`sqlite.ts`) -/

/-- The two chains of the app: `'consensus' | 'domain'`. -/
inductive Chain where
  | consensus
  | domain
deriving DecidableEq, Repr

/-- Row of the `source_inits` table (interface `SourceInit` in `sqlite.ts`). -/
structure SourceInitRow where
  source_chain : Chain
  dst_chain_id : Int
  channel_id : Int
  nonce : String
  from_address : String
  amount : String
  source_block_height : Int
  source_block_hash : String
  source_extrinsic_index : Option Int
deriving DecidableEq, Repr

/-- Row of the `destination_successes` table (interface `DestinationSuccess`). -/
structure DestinationSuccessRow where
  destination_chain : Chain
  src_chain_id : Int
  channel_id : Int
  nonce : String
  amount : String
  destination_block_height : Int
  destination_block_hash : String
deriving DecidableEq, Repr

/-- Row of the `source_acks` table (interface `SourceAck`); `result` is the
TEXT column holding the normalized `'Ok' | 'Err'` string. -/
structure SourceAckRow where
  source_chain : Chain
  dst_chain_id : Int
  channel_id : Int
  nonce : String
  result : String
  source_block_height : Int
  source_block_hash : String
deriving DecidableEq, Repr

/-- PRIMARY KEY (source_chain, channel_id, nonce) of `source_inits`. -/
def initKey (r : SourceInitRow) : Chain × Int × String :=
  (r.source_chain, r.channel_id, r.nonce)

/-- PRIMARY KEY (destination_chain, channel_id, nonce) of `destination_successes`. -/
def destKey (r : DestinationSuccessRow) : Chain × Int × String :=
  (r.destination_chain, r.channel_id, r.nonce)

/-- PRIMARY KEY (source_chain, channel_id, nonce) of `source_acks`. -/
def ackKey (r : SourceAckRow) : Chain × Int × String :=
  (r.source_chain, r.channel_id, r.nonce)

/-- The `DO UPDATE SET` clause of `upsertSourceInit`: every non-key column is
overwritten with the excluded (new) row's value; the key columns stay. -/
def updateSourceInit (old new : SourceInitRow) : SourceInitRow :=
  { old with
    dst_chain_id := new.dst_chain_id
    from_address := new.from_address
    amount := new.amount
    source_block_height := new.source_block_height
    source_block_hash := new.source_block_hash
    source_extrinsic_index := new.source_extrinsic_index }

/-- The `DO UPDATE SET` clause of `upsertDestinationSuccess`. -/
def updateDestinationSuccess (old new : DestinationSuccessRow) : DestinationSuccessRow :=
  { old with
    src_chain_id := new.src_chain_id
    amount := new.amount
    destination_block_height := new.destination_block_height
    destination_block_hash := new.destination_block_hash }

/-- The `DO UPDATE SET` clause of `upsertSourceAck`. -/
def updateSourceAck (old new : SourceAckRow) : SourceAckRow :=
  { old with
    dst_chain_id := new.dst_chain_id
    result := new.result
    source_block_height := new.source_block_height
    source_block_hash := new.source_block_hash }

/-- `upsertSourceInit` of `sqlite.ts`: `INSERT INTO source_inits .. ON
CONFLICT(source_chain, channel_id, nonce) DO UPDATE SET ..`.  On a table
whose rows have pairwise distinct keys (the schema's PRIMARY KEY invariant)
this updates the one conflicting row or appends. -/
def upsertSourceInit (t : List SourceInitRow) (r : SourceInitRow) : List SourceInitRow :=
  if t.any (fun x => initKey x = initKey r) then
    t.map (fun x => if initKey x = initKey r then updateSourceInit x r else x)
  else
    t ++ [r]

/-- `upsertDestinationSuccess` of `sqlite.ts`. -/
def upsertDestinationSuccess (t : List DestinationSuccessRow) (r : DestinationSuccessRow) :
    List DestinationSuccessRow :=
  if t.any (fun x => destKey x = destKey r) then
    t.map (fun x => if destKey x = destKey r then updateDestinationSuccess x r else x)
  else
    t ++ [r]

/-- `upsertSourceAck` of `sqlite.ts`. -/
def upsertSourceAck (t : List SourceAckRow) (r : SourceAckRow) : List SourceAckRow :=
  if t.any (fun x => ackKey x = ackKey r) then
    t.map (fun x => if ackKey x = ackKey r then updateSourceAck x r else x)
  else
    t ++ [r]

/-! ## Scan progress (`sqlite.ts`) -/

/-- The `scan_progress` table: `chain TEXT PRIMARY KEY, last_block_height
INTEGER`, modelled as a keyed map. -/
def ScanProgressTable : Type := Chain → Option Nat

/-- `getLastProcessedBlockHeight` of `sqlite.ts`: point lookup, `null` when
no row exists for the chain. -/
def getLastProcessedBlockHeight (p : ScanProgressTable) (c : Chain) : Option Nat :=
  p c

/-- `setLastProcessedBlockHeight` of `sqlite.ts`: `INSERT .. ON
CONFLICT(chain) DO UPDATE SET last_block_height = MAX(last_block_height,
excluded.last_block_height)`. -/
def setLastProcessedBlockHeight (p : ScanProgressTable) (c : Chain) (h : Nat) :
    ScanProgressTable :=
  fun c' =>
    if c' = c then
      some (match p c with
            | some old => max old h
            | none => h)
    else p c'

/-! ## Correlator (`match.ts`) -/

/-- `AckMode` of `match.ts`: `'dest-only' | 'ack-only' | 'both'`. -/
inductive AckMode where
  | destOnly
  | ackOnly
  | both
deriving DecidableEq, Repr

/-- The two directions `'d2c' | 'c2d'` of `match.ts`. -/
inductive Direction where
  | d2c
  | c2d
deriving DecidableEq, Repr

/-- Source chain of a direction: `d2cSql` filters `i.source_chain = 'domain'`,
`c2dSql` filters `i.source_chain = 'consensus'`. -/
def srcOf : Direction → Chain
  | .d2c => .domain
  | .c2d => .consensus

/-- Destination chain of a direction: `d2cSql` joins
`ds.destination_chain = 'consensus'`, `c2dSql` joins `'domain'`. -/
def dstOf : Direction → Chain
  | .d2c => .consensus
  | .c2d => .domain

/-- `confirmed_by` values of the `MatchedTransferRow` interface. -/
inductive ConfirmedBy where
  | dest
  | ack
  | both
deriving DecidableEq, Repr

/-- The `MatchedTransferRow` interface of `match.ts`. -/
structure MatchedTransferRow where
  direction : Direction
  from_address : String
  channel_id : Int
  nonce : String
  amount : String
  source_block_height : Int
  source_block_hash : String
  source_extrinsic_index : Option Int
  dest_block_height : Option Int
  dest_block_hash : Option String
  confirmed_by : ConfirmedBy
deriving DecidableEq, Repr


/-- One row of the result set of `d2cSql` / `c2dSql`: the selected columns.
Columns coming from the two LEFT-JOINed tables are nullable (`Option`).
The TS iterator reads them as `r.from_address`, `r.channel_id`, …; the
output field named `from` in TS is called `from_address` here. -/
structure SqlJoinRow where
  from_address : String
  channel_id : Int
  nonce : String
  amount : String
  source_block_height : Int
  source_block_hash : String
  source_extrinsic_index : Option Int
  dest_amount : Option String
  destination_block_height : Option Int
  destination_block_hash : Option String
  dest_present : Option Int
  ack_result : Option String
deriving DecidableEq, Repr

/-- The store contents the Correlator reads: the three event tables. -/
structure XdmStore where
  inits : List SourceInitRow
  dests : List DestinationSuccessRow
  acks : List SourceAckRow
deriving Repr

/-- Builds the result row for one init row joined with an optional matching
destination row and an optional matching ack row, following the SELECT list:
`dest_present` is `CASE WHEN ds.destination_chain IS NOT NULL THEN 1 ELSE
NULL END`, `ack_result` is `a.result`. -/
def mkJoinRow (i : SourceInitRow) (d : Option DestinationSuccessRow)
    (a : Option SourceAckRow) : SqlJoinRow :=
  { from_address := i.from_address
    channel_id := i.channel_id
    nonce := i.nonce
    amount := i.amount
    source_block_height := i.source_block_height
    source_block_hash := i.source_block_hash
    source_extrinsic_index := i.source_extrinsic_index
    dest_amount := d.map (fun x => x.amount)
    destination_block_height := d.map (fun x => x.destination_block_height)
    destination_block_hash := d.map (fun x => x.destination_block_hash)
    dest_present := d.map (fun _ => 1)
    ack_result := a.map (fun x => x.result) }

/-- Result set of `d2cSql` / `c2dSql` over the store: `FROM source_inits i
WHERE i.source_chain = src`, `LEFT JOIN destination_successes ds ON
ds.channel_id = i.channel_id AND ds.nonce = i.nonce AND
ds.destination_chain = dst`, `LEFT JOIN source_acks a ON a.channel_id =
i.channel_id AND a.nonce = i.nonce AND a.source_chain = src`.  A LEFT JOIN
keeps every left row, padding with NULL when no right row matches; both ON
conditions depend only on `i`, so the two joins combine independently. -/
def sqlJoinRows (src dst : Chain) (db : XdmStore) : List SqlJoinRow :=
  (db.inits.filter (fun i => i.source_chain = src)).flatMap (fun i =>
    let ds := db.dests.filter (fun d =>
      d.channel_id = i.channel_id ∧ d.nonce = i.nonce ∧ d.destination_chain = dst)
    let sa := db.acks.filter (fun a =>
      a.channel_id = i.channel_id ∧ a.nonce = i.nonce ∧ a.source_chain = src)
    let dsOpt : List (Option DestinationSuccessRow) :=
      if ds.isEmpty then [none] else ds.map some
    let saOpt : List (Option SourceAckRow) :=
      if sa.isEmpty then [none] else sa.map some
    dsOpt.flatMap (fun d => saOpt.map (fun a => mkJoinRow i d a)))

/-- `asBoolean` of `match.ts` on a nullable INTEGER column:
`v != null && v !== 0 && String(v) !== ''`. -/
def asBoolean (v : Option Int) : Bool :=
  match v with
  | none => false
  | some n => decide (n ≠ 0) && decide (toString n ≠ "")

/-- The record the generator of `buildIterator` yields for an included SQL
row: `amount` is `String(r.dest_amount ?? r.amount ?? '0')` (the final `'0'`
is unreachable: the `amount` column is NOT NULL); `from` is
`r.from_address || ''`; `confirmed_by` is
`destOk && ackOk ? 'both' : destOk ? 'dest' : 'ack'`. -/
def emitRow (direction : Direction) (r : SqlJoinRow) : MatchedTransferRow :=
  let destOk := asBoolean r.dest_present
  let ackOk := r.ack_result = some "Ok"
  { direction := direction
    from_address := if r.from_address = "" then "" else r.from_address
    channel_id := r.channel_id
    nonce := r.nonce
    amount := match r.dest_amount with
              | some a => a
              | none => r.amount
    source_block_height := r.source_block_height
    source_block_hash := r.source_block_hash
    source_extrinsic_index := r.source_extrinsic_index
    dest_block_height := r.destination_block_height
    dest_block_hash := r.destination_block_hash
    confirmed_by :=
      if destOk ∧ ackOk then .both else if destOk then .dest else .ack }

/-- The inclusion predicate of `buildIterator` for the configured `ACK_MODE`:
`(ACK_MODE === 'dest-only' && destOk) || (ACK_MODE === 'ack-only' && ackOk)
|| (ACK_MODE === 'both' && (destOk || ackOk))`. -/
def includeRow (ackMode : AckMode) (r : SqlJoinRow) : Prop :=
  let destOk := asBoolean r.dest_present
  let ackOk := r.ack_result = some "Ok"
  (ackMode = .destOnly ∧ destOk) ∨
  (ackMode = .ackOnly ∧ ackOk) ∨
  (ackMode = .both ∧ (destOk ∨ ackOk))

instance (ackMode : AckMode) (r : SqlJoinRow) : Decidable (includeRow ackMode r) := by
  unfold includeRow
  exact inferInstance

/-- The generator body of `buildIterator` in `match.ts`: per SQL row compute
`destOk` / `ackOk`, drop the row unless the configured `ACK_MODE` predicate
holds (`if (!include) continue`), and otherwise map it to a
`MatchedTransferRow`. -/
def buildIterator (ackMode : AckMode) (direction : Direction)
    (rows : List SqlJoinRow) : List MatchedTransferRow :=
  rows.filterMap (fun r => if includeRow ackMode r then some (emitRow direction r) else none)

/-- The Correlator's output for one direction under one mode: `buildIterator`
applied to the direction's SQL result set (`main` of `match.ts`). -/
def matchOutput (ackMode : AckMode) (direction : Direction) (db : XdmStore) :
    List MatchedTransferRow :=
  buildIterator ackMode direction (sqlJoinRows (srcOf direction) (dstOf direction) db)

/-- Existence of a confirming destination-success row for a correlation key:
the `ds` join predicate of `d2cSql`/`c2dSql` is satisfiable in the store. -/
def destExists (db : XdmStore) (dst : Chain) (channel : Int) (nonce : String) : Prop :=
  ∃ d ∈ db.dests, d.channel_id = channel ∧ d.nonce = nonce ∧ d.destination_chain = dst

/-- Existence of a confirming `Ok` ack row for a correlation key. -/
def ackOkExists (db : XdmStore) (src : Chain) (channel : Int) (nonce : String) : Prop :=
  ∃ a ∈ db.acks, a.channel_id = channel ∧ a.nonce = nonce ∧ a.source_chain = src ∧
    a.result = "Ok"

/-! ## Block Scanner (`scan-runner.ts`) -/

/-- Fuel-indexed unfolding of the worker's height loop
`for (let h = scanStart + workerId; h <= end; h += blockConcurrency)`. The
fuel only bounds the recursion; `workerHeights` supplies enough of it for
the whole range. -/
def workerLoop : Nat → Nat → Nat → Nat → List Nat
  | 0, _, _, _ => []
  | fuel + 1, h, e, step => if h ≤ e then h :: workerLoop fuel (h + step) e step else []

/-- The heights worker `i` of `runScan` processes over `[scanStart, e]` with
pool size `n` (`blockConcurrency`): `scanStart + i, scanStart + i + n, …`. -/
def workerHeights (scanStart e n i : Nat) : List Nat :=
  workerLoop (e + 1) (scanStart + i) e n

/-- The scan coordination state shared by the workers of one `runScan` call:
the `processedFlags` array (indexed by height offset, modelled as a total
map that is `false` outside the arena, matching a JS array read of an unset
slot being falsy), the `nextToCommit` cursor, and the persisted
`scan_progress` table. -/
structure ScanState where
  flags : Nat → Bool
  next : Nat
  progress : ScanProgressTable

/-- Fuel-indexed unfolding of `advanceCommit`:
`while (nextToCommit <= end) { if (!processedFlags[nextToCommit - scanStart])
break; setLastProcessedBlockHeight(db, chain, nextToCommit); nextToCommit += 1 }`. -/
def advanceCommitLoop (scanStart e : Nat) (c : Chain) : Nat → ScanState → ScanState
  | 0, s => s
  | fuel + 1, s =>
    if s.next ≤ e ∧ s.flags (s.next - scanStart) then
      advanceCommitLoop scanStart e c fuel
        { flags := s.flags
          next := s.next + 1
          progress := setLastProcessedBlockHeight s.progress c s.next }
    else s

/-- `advanceCommit` of `scan-runner.ts`; `e + 1` fuel suffices because the
cursor advances at most `e + 1 - scanStart` times. -/
def advanceCommit (scanStart e : Nat) (c : Chain) (s : ScanState) : ScanState :=
  advanceCommitLoop scanStart e c (e + 1) s

/-- What a worker does after successfully processing height `h`:
`processedFlags[h - scanStart] = true; advanceCommit()`.  In the JS runtime
these two statements run atomically (no `await` between them), so a whole
scan is some interleaving of these steps, one per completed height. -/
def completeHeight (scanStart e : Nat) (c : Chain) (s : ScanState) (h : Nat) : ScanState :=
  advanceCommit scanStart e c
    { s with flags := fun k => if k = h - scanStart then true else s.flags k }

/-- The scan state after the workers have completed the heights `hs` (in
some interleaved order), starting from the fresh state of `runScan`:
all flags `false`, `nextToCommit = scanStart`. -/
def runCompleted (scanStart e : Nat) (c : Chain) (p0 : ScanProgressTable)
    (hs : List Nat) : ScanState :=
  hs.foldl (completeHeight scanStart e c)
    { flags := fun _ => false, next := scanStart, progress := p0 }

/-! ## JavaScript values reaching `event-utils.ts` -/

/-- Model of the JavaScript values the polkadot codec hands to `asNumber` /
`asString`: a codec object carrying both a `toNumber()` and a `toString()`
method, a primitive string, a primitive number, `null`, `undefined`, and
the codec `Result` values (which expose `isOk`). -/
inductive JsVal where
  | codec (n : Int) (s : String)
  | str (s : String)
  | num (n : Int)
  | null
  | undef
  | resOk
  | resErr
deriving DecidableEq, Repr

/-- Truthiness of `v?.toNumber`: only codec objects expose `toNumber()`. -/
def jsToNumber : JsVal → Option Int
  | .codec n _ => some n
  | _ => none

/-- Truthiness and result of `v?.toString`: every value except `null` /
`undefined` has a `toString` method (`Object.prototype` and friends). -/
def jsToString : JsVal → Option String
  | .codec _ s => some s
  | .str s => some s
  | .num n => some (toString n)
  | .null => none
  | .undef => none
  | .resOk => some "Ok"
  | .resErr => some "Err"

/-- Value of a list of decimal digit characters. -/
def digitsToNat (l : List Char) : Nat :=
  l.foldl (fun acc c => 10 * acc + (c.toNat - 48)) 0

/-- Model of the JS `Number(string)` coercion, restricted to the
integer-valued cases the capture pipeline meets: an optionally signed digit
string (after trimming surrounding whitespace) parses to its value, the
empty/whitespace string coerces to `0`, anything else is `NaN`, represented
as `none`. -/
def jsStringToNumber (s : String) : Option Int :=
  let t := ((s.toList.dropWhile Char.isWhitespace).reverse.dropWhile
    Char.isWhitespace).reverse
  if t = [] then some 0
  else if t.all Char.isDigit then some (digitsToNat t)
  else if t.head? = some '-' ∧ t.tail ≠ [] ∧ t.tail.all Char.isDigit then
    some (-(digitsToNat t.tail))
  else none

/-- Result of the JS `Number(v)` coercion on the non-string values `asNumber`
can reach after the `v?.toString ? v.toString() : v` step: only `null` and
`undefined` remain unconverted there, and `Number(null) = 0`,
`Number(undefined) = NaN`. -/
def jsNumberSem : JsVal → Option Int
  | .null => some 0
  | .undef => none
  | v => (jsToString v).bind jsStringToNumber

/-- `asNumber` of `event-utils.ts`:
`if (v?.toNumber) return v.toNumber(); const s = v?.toString ? v.toString() :
v; const n = Number(s); return Number.isNaN(n) ? 0 : n`. -/
def asNumber (v : JsVal) : Int :=
  match jsToNumber v with
  | some n => n
  | none =>
    match jsNumberSem v with
    | some n => n
    | none => 0

/-- `asString` of `event-utils.ts`:
`v?.toString ? v.toString() : String(v)`; `String(null) = "null"`,
`String(undefined) = "undefined"`. -/
def asString (v : JsVal) : String :=
  match jsToString v with
  | some s => s
  | none =>
    match v with
    | .null => "null"
    | _ => "undefined"

/-! ## Extrinsics and events (`event-utils.ts`, guarded variant) -/

/-- The parts of a decoded call (`extrinsic.method`) that
`extractAmountFromCall` inspects.  `msection` is `method.section`; the TS
names `section` / `method` are Lean keywords and are prefixed here.
`metaArgNames` is the list of `meta.args[i].name` strings when
`method.meta?.args` is an array, `none` otherwise. -/
structure CallMethod where
  msection : String
  args : List JsVal
  metaArgNames : Option (List String)
deriving Repr

/-- A block extrinsic as `processXdmEvents` sees it: `isSigned`, the
`signer?.toString?.() || ''` result (the empty string models an unsigned or
unresolvable signer), and the decoded call. -/
structure Extrinsic where
  isSigned : Bool
  signer : String
  method : Option CallMethod
deriving Repr

/-- `record.phase`: either `ApplyExtrinsic(idx)` or any other phase. -/
inductive EventPhase where
  | applyExtrinsic (idx : Nat)
  | other
deriving DecidableEq, Repr

/-- An event record as `processXdmEvents` destructures it.  The `data`
tuple is flattened per branch: `chainIdArg` is `data[0]`, `channelIdArg` /
`nonceArg` are the components of the `messageId` pair (or `data[1]` /
`data[2]` for `OutboxMessageResult`), `amountArg` is the optional `data[2]`
amount of the transporter events, `resultArg` is `data[3]` of
`OutboxMessageResult`. -/
structure EventRecord where
  evSection : String
  evMethod : String
  phase : EventPhase
  chainIdArg : JsVal
  channelIdArg : JsVal
  nonceArg : JsVal
  amountArg : Option JsVal
  resultArg : JsVal
deriving Repr

/-- Row of the `event_failures` diagnostics table written by
`insertEventFailure`. -/
structure EventFailureRow where
  chain : Chain
  block_height : Int
  block_hash : String
  extrinsic_index : Option Nat
  esection : String
  emethod : String
  reason : String
deriving DecidableEq, Repr

/-- The Event Store state that `processXdmEvents` mutates: the three event
tables plus the failure diagnostics. -/
structure XdmDb where
  inits : List SourceInitRow
  dests : List DestinationSuccessRow
  acks : List SourceAckRow
  failures : List EventFailureRow
deriving DecidableEq, Repr

/-- Modelled from the spec: the body of `insertEventFailure` lives in the
node-based `sqlite.ts`, which is not among the provided sources (only its
callers in the guarded `event-utils.ts` are).  The spec defines EventFailure
as an "append-only diagnostic record (chain, block height/hash, extrinsic
index, event kind, reason)", so the upsert appends the record. -/
def insertEventFailure (db : XdmDb) (f : EventFailureRow) : XdmDb :=
  { db with failures := db.failures ++ [f] }

/-- JS loose `val != null`, true exactly off `null` / `undefined`. -/
def jsNonNull (v : JsVal) : Bool :=
  match v with
  | .null => false
  | .undef => false
  | _ => true

/-- `extractAmountFromCall` of `event-utils.ts`: from a `transporter` call,
read the argument named `amount` in the call metadata, falling back to the
last positional argument; `null` when anything is missing. -/
def extractAmountFromCall (ext : Option Extrinsic) : Option String :=
  match ext with
  | none => none
  | some x =>
    match x.method with
    | none => none
    | some m =>
      if m.msection ≠ "transporter" then none
      else
        let viaMeta : Option (Option String) :=
          match m.metaArgNames with
          | some names =>
            match names.findIdx? (fun nm => nm = "amount") with
            | some idx =>
              some (match m.args[idx]? with
                    | some v => if jsNonNull v then some (asString v) else none
                    | none => none)
            | none => none
          | none => none
        match viaMeta with
        | some r => r
        | none =>
          match m.args.getLast? with
          | some v => if jsNonNull v then some (asString v) else none
          | none => none

/-- `phase.isApplyExtrinsic ? phase.asApplyExtrinsic.toNumber() : null`. -/
def resolvedExtrinsicIndex (e : EventRecord) : Option Nat :=
  match e.phase with
  | .applyExtrinsic idx => some idx
  | .other => none

/-- `extrinsicIndex != null ? extrinsics[extrinsicIndex] : undefined`; an
out-of-range JS array read yields `undefined`. -/
def originExtrinsic (extrinsics : List Extrinsic) (e : EventRecord) : Option Extrinsic :=
  match resolvedExtrinsicIndex e with
  | some idx => extrinsics[idx]?
  | none => none

/-- The signer string the guarded variant computes: `''` unless the
extrinsic exists, reports `isSigned`, and its signer stringifies to a
non-empty value. -/
def signerOf (ext : Option Extrinsic) : String :=
  match ext with
  | some x => if x.isSigned then x.signer else ""
  | none => ""

/-- The block-level parameters of one `processXdmEvents` call. -/
structure BlockCtx where
  chain : Chain
  extrinsics : List Extrinsic
  blockHeight : Int
  blockHash : String

/-- Result of `result?.isOk` on the `OutboxMessageResult` payload: defined
only on the codec `Result` values. -/
def jsIsOk : JsVal → Option Bool
  | .resOk => some true
  | .resErr => some false
  | _ => none

/-- The amount of an `OutgoingTransferInitiated` event:
`amountField != null ? asString(amountField) : extractAmountFromCall(extrinsic) || '0'`
(`||` replaces an empty or missing call amount by `'0'`). -/
def otiAmount (extrinsic : Option Extrinsic) (e : EventRecord) : String :=
  match e.amountArg with
  | some a =>
    if jsNonNull a then asString a
    else match extractAmountFromCall extrinsic with
         | some s => if s = "" then "0" else s
         | none => "0"
  | none =>
    match extractAmountFromCall extrinsic with
    | some s => if s = "" then "0" else s
    | none => "0"

/-- The SourceInit row the guarded `processXdmEvents` builds for an accepted
`OutgoingTransferInitiated` event. -/
def otiRow (ctx : BlockCtx) (e : EventRecord) (signer : String) (amount : String)
    (extrinsicIndex : Option Nat) : SourceInitRow :=
  { source_chain := ctx.chain
    dst_chain_id := asNumber e.chainIdArg
    channel_id := asNumber e.channelIdArg
    nonce := asString e.nonceArg
    from_address := signer
    amount := amount
    source_block_height := ctx.blockHeight
    source_block_hash := ctx.blockHash
    source_extrinsic_index := extrinsicIndex.map (fun idx => (idx : Int)) }

/-- One iteration of the guarded `processXdmEvents` loop (`event-utils.ts`,
guarded variant) on a single event record.  The three `if` branches have
mutually exclusive `(section, method)` conditions, so the chain of
conditionals is faithful; `continue` after an `insertEventFailure` skips the
rest of the iteration. -/
def processOneEvent (ctx : BlockCtx) (db : XdmDb) (e : EventRecord) : XdmDb :=
  let extrinsicIndex := resolvedExtrinsicIndex e
  let extrinsic := originExtrinsic ctx.extrinsics e
  if e.evSection = "transporter" ∧ e.evMethod = "OutgoingTransferInitiated" then
    let amount := otiAmount extrinsic e
    -- Guard: `extrinsicIndex != null && (extrinsicIndex < 0 || extrinsicIndex >=
    -- (extrinsics?.length ?? 0))`; the `< 0` half is vacuous for a Nat index.
    if (match extrinsicIndex with
        | some idx => decide (ctx.extrinsics.length ≤ idx)
        | none => false) then
      insertEventFailure db
        { chain := ctx.chain
          block_height := ctx.blockHeight
          block_hash := ctx.blockHash
          extrinsic_index := extrinsicIndex
          esection := e.evSection
          emethod := e.evMethod
          reason := "extrinsic_index_out_of_range" }
    else
      let signer := signerOf extrinsic
      if signer = "" then
        insertEventFailure db
          { chain := ctx.chain
            block_height := ctx.blockHeight
            block_hash := ctx.blockHash
            extrinsic_index := extrinsicIndex
            esection := e.evSection
            emethod := e.evMethod
            reason := "unsigned_or_signer_unavailable" }
      else
        { db with
          inits := upsertSourceInit db.inits (otiRow ctx e signer amount extrinsicIndex) }
  else if e.evSection = "transporter" ∧ e.evMethod = "IncomingTransferSuccessful" then
    { db with
      dests := upsertDestinationSuccess db.dests
        { destination_chain := ctx.chain
          src_chain_id := asNumber e.chainIdArg
          channel_id := asNumber e.channelIdArg
          nonce := asString e.nonceArg
          amount := match e.amountArg with
                    | some a => if jsNonNull a then asString a else "0"
                    | none => "0"
          destination_block_height := ctx.blockHeight
          destination_block_hash := ctx.blockHash } }
  else if e.evSection = "messenger" ∧ e.evMethod = "OutboxMessageResult" then
    let isOk :=
      match jsIsOk e.resultArg with
      | some b => b
      | none => asString e.resultArg = "Ok"
    { db with
      acks := upsertSourceAck db.acks
        { source_chain := ctx.chain
          dst_chain_id := asNumber e.chainIdArg
          channel_id := asNumber e.channelIdArg
          nonce := asString e.nonceArg
          result := if isOk then "Ok" else "Err"
          source_block_height := ctx.blockHeight
          source_block_hash := ctx.blockHash } }
  else db

/-- The guarded `processXdmEvents`: fold the per-event step over the block's
event list. -/
def processXdmEvents (ctx : BlockCtx) (db : XdmDb) (events : List EventRecord) : XdmDb :=
  events.foldl (processOneEvent ctx) db

/-! ## Segmented event retrieval (`chain.ts` and `node-based/chain.ts`) -/

/-- An event record as the segment retrieval code handles it: only the four
components entering the deduplication key (`ev.section`, `ev.method`,
`ev.data.toString()`, `rec.phase.toString()`) are observed. -/
structure SegEvent where
  evSection : String
  evMethod : String
  dataStr : String
  phaseStr : String
deriving DecidableEq, Repr

/-- The deduplication key built in `node-based/chain.ts`:
`section + '|' + method + '|' + data + '|' + phase`. -/
def segEventKey (e : SegEvent) : String :=
  e.evSection ++ "|" ++ e.evMethod ++ "|" ++ e.dataStr ++ "|" ++ e.phaseStr

/-- `getEventsAt` of `chain.ts` (the variant next to `scan-runner.ts`),
segmented path with `eventSegments` present: `SEGMENT_SIZE = 100`,
`lastIndex = Math.floor((count - 1) / 100)`, then segments `0..lastIndex`
are fetched at the block hash and concatenated; the function returns the
flattened list without deduplication (its own comment: "Return all events
from 0..lastIndex without deduplication").  `count` is the `eventCount`
storage value (`0` when absent); `segs i` is the unwrapped content of
segment `i` (`[]` for a `None` option). -/
def getEventsAtSegmented (count : Nat) (segs : Nat → List SegEvent) : List SegEvent :=
  let lastIndex : Int := ((count : Int) - 1).fdiv 100
  ((List.range (lastIndex + 1).toNat).map segs).flatten

/-- The `seen`-set filter of `node-based/chain.ts`: keep the first record for
each deduplication key. -/
def dedupEventsAux : List SegEvent → List String → List SegEvent
  | [], _ => []
  | e :: rest, seen =>
    if segEventKey e ∈ seen then dedupEventsAux rest seen
    else e :: dedupEventsAux rest (segEventKey e :: seen)

/-- `Deduplicate events that may appear in multiple segments` block of
`node-based/chain.ts`. -/
def dedupEvents (l : List SegEvent) : List SegEvent :=
  dedupEventsAux l []

/-- The blind-scan fallback of `node-based/chain.ts`: fetch segments
`0, 1, …` up to `MAX_SEGMENTS`, stopping at the first empty one. -/
def blindScanLoop : Nat → Nat → (Nat → List SegEvent) → List SegEvent
  | 0, _, _ => []
  | fuel + 1, i, segs =>
    let arr := segs i
    if arr.isEmpty then [] else arr ++ blindScanLoop fuel (i + 1) segs

/-- The `flattened` list accumulated by `getEventsAt` of
`node-based/chain.ts`: via `numSegments = Math.ceil(count / 100)` when
`eventsCount` yields a finite positive `count` (`countOpt`), else via
`entriesAt` when available, else via the blind scan.  Skipping empty
segments (`if (!arr.length) continue`) equals plain concatenation. -/
def nodeFlattened (countOpt : Option Nat) (segs : Nat → List SegEvent)
    (entries : Option (List (List SegEvent))) (maxSegments : Nat) : List SegEvent :=
  let numSegments : Option Nat :=
    match countOpt with
    | some c => if 0 < c then some ((c + 99) / 100) else none
    | none => none
  match numSegments with
  | some n => ((List.range n).map segs).flatten
  | none =>
    match entries with
    | some es => es.flatten
    | none => blindScanLoop maxSegments 0 segs

/-- `getEventsAt` of `node-based/chain.ts`, segmented path with
`eventSegments` present: dedup the flattened segment content, falling back
to the legacy `system.events` list when no segment content was found. -/
def getEventsAtNode (countOpt : Option Nat) (segs : Nat → List SegEvent)
    (entries : Option (List (List SegEvent))) (maxSegments : Nat)
    (legacy : List SegEvent) : List SegEvent :=
  let flattened := nodeFlattened countOpt segs entries maxSegments
  if flattened.isEmpty then legacy else dedupEvents flattened

/-! ## Shared upsert pattern -/

/-- The common shape of the three `sqlite.ts` upserts, abstracted over the
key projection and the `DO UPDATE SET` field merge. -/
def upsertStep {α κ : Type} [DecidableEq κ] (key : α → κ) (upd : α → α → α)
    (t : List α) (r : α) : List α :=
  if t.any (fun x => key x = key r) then
    t.map (fun x => if key x = key r then upd x r else x)
  else
    t ++ [r]

/-! ## Scan coordination invariant -/

/-- The state invariant of the flag-table / commit-cursor protocol of
`runScan`: the cursor never went below the resume point, flags are only set
for completed heights (`done`), every height offset below the cursor is
flagged, and the persisted `scan_progress` row for the scanned chain is
exactly the last committed height (absent before the first commit). -/
def GoodScanState (scanStart e : Nat) (c : Chain) (done : Nat → Prop)
    (s : ScanState) : Prop :=
  scanStart ≤ s.next ∧
  (scanStart < s.next → s.next ≤ e + 1) ∧
  (∀ k, s.flags k = true → done (scanStart + k)) ∧
  (∀ k, k < s.next - scanStart → s.flags k = true) ∧
  (s.progress c = if scanStart < s.next then some (s.next - 1) else none)

/-- Characterization of the optional destination row a LEFT JOIN pairs with
an init row: a present row is a member of `destination_successes` satisfying
the ON condition; an absent row means no member satisfies it. -/
def destJoinedOpt (db : XdmStore) (dst : Chain) (i : SourceInitRow) :
    Option DestinationSuccessRow → Prop
  | some d => d ∈ db.dests ∧ d.channel_id = i.channel_id ∧ d.nonce = i.nonce ∧
      d.destination_chain = dst
  | none => ∀ d ∈ db.dests, ¬(d.channel_id = i.channel_id ∧ d.nonce = i.nonce ∧
      d.destination_chain = dst)

/-- Characterization of the optional ack row a LEFT JOIN pairs with an init
row. -/
def ackJoinedOpt (db : XdmStore) (src : Chain) (i : SourceInitRow) :
    Option SourceAckRow → Prop
  | some a => a ∈ db.acks ∧ a.channel_id = i.channel_id ∧ a.nonce = i.nonce ∧
      a.source_chain = src
  | none => ∀ a ∈ db.acks, ¬(a.channel_id = i.channel_id ∧ a.nonce = i.nonce ∧
      a.source_chain = src)

/-! ## Concrete example data (the spec's end-to-end scenario) -/

/-- The spec's example initiation: chain A (`domain`) emits
`OutgoingTransferInitiated(channel_id = 1, nonce = 5, amount = "100")` at
height 10, signer `addrA`. -/
def exInit : SourceInitRow :=
  { source_chain := .domain, dst_chain_id := 0, channel_id := 1, nonce := "5"
    from_address := "addrA", amount := "100", source_block_height := 10
    source_block_hash := "hashA", source_extrinsic_index := some 2 }

/-- The spec's example confirmation: chain B (`consensus`) emits
`IncomingTransferSuccessful(channel_id = 1, nonce = 5, amount = "95")` at
height 20. -/
def exDest : DestinationSuccessRow :=
  { destination_chain := .consensus, src_chain_id := 1, channel_id := 1, nonce := "5"
    amount := "95", destination_block_height := 20, destination_block_hash := "hashB" }

/-- An `Ok` acknowledgment for the same correlation key on the source chain. -/
def exAckOk : SourceAckRow :=
  { source_chain := .domain, dst_chain_id := 0, channel_id := 1, nonce := "5"
    result := "Ok", source_block_height := 30, source_block_hash := "hashC" }

/-- Store holding the example rows of all three tables. -/
def exStore : XdmStore :=
  { inits := [exInit], dests := [exDest], acks := [exAckOk] }

/-! ## Concrete example events for the extraction guards -/

/-- An `OutgoingTransferInitiated` event record claiming extrinsic index 3. -/
def exOtiEvent3 : EventRecord :=
  { evSection := "transporter", evMethod := "OutgoingTransferInitiated"
    phase := .applyExtrinsic 3
    chainIdArg := .codec 1 "1", channelIdArg := .codec 1 "1", nonceArg := .codec 5 "5"
    amountArg := some (.codec 100 "100"), resultArg := .null }

/-- An `OutgoingTransferInitiated` event at extrinsic index 0 whose chain and
channel id payloads are plain unparsable strings. -/
def exOtiBadIds : EventRecord :=
  { evSection := "transporter", evMethod := "OutgoingTransferInitiated"
    phase := .applyExtrinsic 0
    chainIdArg := .str "abc", channelIdArg := .str "xyz", nonceArg := .codec 5 "5"
    amountArg := some (.codec 100 "100"), resultArg := .null }

/-- A block context with no extrinsics at all. -/
def exCtxNoExt : BlockCtx :=
  { chain := .domain, extrinsics := [], blockHeight := 10, blockHash := "hashA" }

/-- A block context whose only extrinsic is signed by `addrA`. -/
def exCtxSigned : BlockCtx :=
  { chain := .domain
    extrinsics := [{ isSigned := true, signer := "addrA", method := none }]
    blockHeight := 10, blockHash := "hashA" }

/-- The empty event-store state. -/
def exDbEmpty : XdmDb :=
  { inits := [], dests := [], acks := [], failures := [] }

/-! # Theorems -/

/-! ## Upsert idempotence and key uniqueness (C2) -/

theorem upsertStep_idem {α κ : Type} [DecidableEq κ] (key : α → κ) (upd : α → α → α)
    (hkey : ∀ x r, key (upd x r) = key x)
    (hupd : ∀ x r, upd (upd x r) r = upd x r)
    (hself : ∀ r, upd r r = r)
    (t : List α) (r : α) :
    upsertStep key upd (upsertStep key upd t r) r = upsertStep key upd t r := by
  by_cases h : t.any (fun x => key x = key r) = true
  · have hmap : upsertStep key upd t r
        = t.map (fun x => if key x = key r then upd x r else x) := by
      simp [upsertStep, h]
    have hany : ((t.map fun x => if key x = key r then upd x r else x).any
        (fun x => key x = key r)) = true := by
      simp only [List.any_map, List.any_eq_true, Function.comp_apply,
        decide_eq_true_eq] at h ⊢
      obtain ⟨x, hx, hkx⟩ := h
      exact ⟨x, hx, by rw [if_pos hkx, hkey, hkx]⟩
    rw [hmap]
    simp only [upsertStep, hany, if_true, List.map_map]
    apply List.map_congr_left
    intro x _
    by_cases hx : key x = key r
    · simp only [Function.comp_apply, if_pos hx]
      rw [if_pos (by rw [hkey, hx]), hupd]
    · simp only [Function.comp_apply, if_neg hx]
  · have happ : upsertStep key upd t r = t ++ [r] := by
      simp only [upsertStep, if_neg h]
    have hany : ((t ++ [r]).any (fun x => key x = key r)) = true := by
      simp [List.any_append]
    rw [happ]
    simp only [upsertStep, hany, if_true, List.map_append, List.map_cons, List.map_nil]
    have hnone : ∀ x ∈ t, ¬(key x = key r) := by
      intro x hx hkx
      exact h (List.any_eq_true.mpr ⟨x, hx, decide_eq_true hkx⟩)
    have ht : t.map (fun x => if key x = key r then upd x r else x) = t := by
      conv_rhs => rw [← List.map_id t]
      apply List.map_congr_left
      intro x hx
      rw [if_neg (hnone x hx)]
      rfl
    rw [ht, hself]

theorem upsertStep_keys_nodup {α κ : Type} [DecidableEq κ] (key : α → κ) (upd : α → α → α)
    (hkey : ∀ x r, key (upd x r) = key x)
    (t : List α) (r : α) (h : (t.map key).Nodup) :
    ((upsertStep key upd t r).map key).Nodup := by
  by_cases hc : t.any (fun x => key x = key r) = true
  · have : (upsertStep key upd t r).map key = t.map key := by
      simp only [upsertStep, hc, if_true, List.map_map]
      apply List.map_congr_left
      intro x _
      by_cases hx : key x = key r
      · simp only [Function.comp_apply, if_pos hx, hkey]
      · simp only [Function.comp_apply, if_neg hx]
    rw [this]
    exact h
  · have hnone : ∀ x ∈ t, ¬(key x = key r) := by
      intro x hx hkx
      exact hc (List.any_eq_true.mpr ⟨x, hx, decide_eq_true hkx⟩)
    simp only [upsertStep, hc, if_neg, Bool.false_eq_true, if_false, List.map_append,
      List.map_cons, List.map_nil]
    refine List.Nodup.append h (List.nodup_singleton _) ?_
    intro a ha hb
    simp only [List.mem_singleton] at hb
    subst hb
    obtain ⟨x, hx, hkx⟩ := List.mem_map.mp ha
    exact hnone x hx hkx

theorem foldl_upsertStep_keys_nodup {α κ : Type} [DecidableEq κ] (key : α → κ)
    (upd : α → α → α) (hkey : ∀ x r, key (upd x r) = key x) (rs : List α) :
    (((rs.foldl (upsertStep key upd) []).map key)).Nodup := by
  suffices h : ∀ t : List α, (t.map key).Nodup →
      ((rs.foldl (upsertStep key upd) t).map key).Nodup by
    exact h [] (by simp)
  induction rs with
  | nil => intro t ht; simpa using ht
  | cons r rs ih =>
    intro t ht
    exact ih _ (upsertStep_keys_nodup key upd hkey t r ht)

theorem upsertSourceInit_eq_step : upsertSourceInit = upsertStep initKey updateSourceInit :=
  rfl

theorem upsertDestinationSuccess_eq_step :
    upsertDestinationSuccess = upsertStep destKey updateDestinationSuccess :=
  rfl

theorem upsertSourceAck_eq_step : upsertSourceAck = upsertStep ackKey updateSourceAck :=
  rfl

/-- C2: applying any of the three `sqlite.ts` upserts twice with the identical
row equals applying it once (the second application is a no-op on store
state), and after any sequence of upserts starting from the freshly created
table, each table holds at most one row per its PRIMARY KEY (the projections
of the rows to their key columns are pairwise distinct). -/
theorem upserts_idempotent_and_keys_unique :
    (∀ (t : List SourceInitRow) (r : SourceInitRow),
      upsertSourceInit (upsertSourceInit t r) r = upsertSourceInit t r) ∧
    (∀ (t : List DestinationSuccessRow) (r : DestinationSuccessRow),
      upsertDestinationSuccess (upsertDestinationSuccess t r) r
        = upsertDestinationSuccess t r) ∧
    (∀ (t : List SourceAckRow) (r : SourceAckRow),
      upsertSourceAck (upsertSourceAck t r) r = upsertSourceAck t r) ∧
    (∀ rs : List SourceInitRow, ((rs.foldl upsertSourceInit []).map initKey).Nodup) ∧
    (∀ rs : List DestinationSuccessRow,
      ((rs.foldl upsertDestinationSuccess []).map destKey).Nodup) ∧
    (∀ rs : List SourceAckRow, ((rs.foldl upsertSourceAck []).map ackKey).Nodup) := by
  refine ⟨?_, ?_, ?_, ?_, ?_, ?_⟩
  · intro t r
    rw [upsertSourceInit_eq_step]
    exact upsertStep_idem initKey updateSourceInit (fun x r => rfl) (fun x r => rfl)
      (fun r => rfl) t r
  · intro t r
    rw [upsertDestinationSuccess_eq_step]
    exact upsertStep_idem destKey updateDestinationSuccess (fun x r => rfl) (fun x r => rfl)
      (fun r => rfl) t r
  · intro t r
    rw [upsertSourceAck_eq_step]
    exact upsertStep_idem ackKey updateSourceAck (fun x r => rfl) (fun x r => rfl)
      (fun r => rfl) t r
  · intro rs
    rw [upsertSourceInit_eq_step]
    exact foldl_upsertStep_keys_nodup initKey updateSourceInit (fun x r => rfl) rs
  · intro rs
    rw [upsertDestinationSuccess_eq_step]
    exact foldl_upsertStep_keys_nodup destKey updateDestinationSuccess (fun x r => rfl) rs
  · intro rs
    rw [upsertSourceAck_eq_step]
    exact foldl_upsertStep_keys_nodup ackKey updateSourceAck (fun x r => rfl) rs

/-! ## ScanProgress monotonicity (C7) -/

theorem setLastProcessedBlockHeight_mono (p : ScanProgressTable) (c : Chain) (h : Nat)
    (c' : Chain) (old : Nat) (hold : getLastProcessedBlockHeight p c' = some old) :
    ∃ new, getLastProcessedBlockHeight (setLastProcessedBlockHeight p c h) c' = some new ∧
      old ≤ new := by
  unfold getLastProcessedBlockHeight setLastProcessedBlockHeight at *
  by_cases hc : c' = c
  · subst hc
    rw [if_pos rfl, hold]
    exact ⟨max old h, rfl, Nat.le_max_left _ _⟩
  · rw [if_neg hc]
    exact ⟨old, hold, Nat.le_refl _⟩

/-- C7: `setLastProcessedBlockHeight` never moves the persisted ScanProgress
value backwards: the written value is `MAX(previous, h)`, a single call only
raises the stored height for that chain, and any sequence of calls (over
either chain, with arbitrary heights) leaves every chain's stored
last-processed height monotonically non-decreasing. -/
theorem scanProgress_monotone :
    (∀ (p : ScanProgressTable) (c : Chain) (h : Nat),
      getLastProcessedBlockHeight (setLastProcessedBlockHeight p c h) c
        = some (match getLastProcessedBlockHeight p c with
                | some old => max old h
                | none => h)) ∧
    (∀ (p : ScanProgressTable) (c : Chain) (h : Nat) (c' : Chain) (old : Nat),
      getLastProcessedBlockHeight p c' = some old →
      ∃ new, getLastProcessedBlockHeight (setLastProcessedBlockHeight p c h) c'
          = some new ∧ old ≤ new) ∧
    (∀ (p : ScanProgressTable) (c : Chain) (calls : List (Chain × Nat)) (old : Nat),
      getLastProcessedBlockHeight p c = some old →
      ∃ new, getLastProcessedBlockHeight
          (calls.foldl (fun q ch => setLastProcessedBlockHeight q ch.1 ch.2) p) c
          = some new ∧ old ≤ new) := by
  refine ⟨?_, ?_, ?_⟩
  · intro p c h
    unfold getLastProcessedBlockHeight setLastProcessedBlockHeight
    rw [if_pos rfl]
  · exact setLastProcessedBlockHeight_mono
  · intro p c calls
    induction calls generalizing p with
    | nil => intro old hold; exact ⟨old, hold, Nat.le_refl _⟩
    | cons ch rest ih =>
      intro old hold
      obtain ⟨mid, hmid, hle⟩ :=
        setLastProcessedBlockHeight_mono p ch.1 ch.2 c old hold
      obtain ⟨new, hnew, hle2⟩ := ih (setLastProcessedBlockHeight p ch.1 ch.2) mid hmid
      exact ⟨new, hnew, Nat.le_trans hle hle2⟩

/-- Witness for C7 at concrete inputs: a single raising call and a mixed
call sequence over both chains, starting from a table holding `5` for
`consensus`. -/
theorem scanProgress_monotone_witness :
    (∃ new, getLastProcessedBlockHeight
        (setLastProcessedBlockHeight (fun _ => some 5) Chain.consensus 9) Chain.consensus
        = some new ∧ 5 ≤ new) ∧
    (∃ new, getLastProcessedBlockHeight
        (([(Chain.consensus, 2), (Chain.domain, 7), (Chain.consensus, 9)] :
            List (Chain × Nat)).foldl
          (fun q ch => setLastProcessedBlockHeight q ch.1 ch.2) (fun _ => some 5))
        Chain.consensus = some new ∧ 5 ≤ new) :=
  ⟨scanProgress_monotone.2.1 (fun _ => some 5) Chain.consensus 9 Chain.consensus 5 rfl,
   scanProgress_monotone.2.2 (fun _ => some 5) Chain.consensus
     [(Chain.consensus, 2), (Chain.domain, 7), (Chain.consensus, 9)] 5 rfl⟩

/-! ## Worker partitioning (C4) -/

theorem workerLoop_mem (fuel h e step x : Nat) (hstep : 1 ≤ step)
    (hfuel : e + 1 ≤ fuel + h) :
    x ∈ workerLoop fuel h e step ↔ ∃ k, x = h + k * step ∧ x ≤ e := by
  induction fuel generalizing h with
  | zero =>
    simp only [workerLoop, List.not_mem_nil, false_iff]
    rintro ⟨k, rfl, hle⟩
    omega
  | succ f ih =>
    simp only [workerLoop]
    by_cases hle : h ≤ e
    · rw [if_pos hle]
      simp only [List.mem_cons]
      rw [ih (h + step) (by omega)]
      constructor
      · rintro (rfl | ⟨k, rfl, hk⟩)
        · exact ⟨0, by omega, hle⟩
        · exact ⟨k + 1, by rw [Nat.succ_mul]; omega, hk⟩
      · rintro ⟨k, rfl, hk⟩
        cases k with
        | zero => left; omega
        | succ k => right; exact ⟨k, by rw [Nat.succ_mul]; omega, hk⟩
    · rw [if_neg hle]
      simp only [List.not_mem_nil, false_iff]
      rintro ⟨k, rfl, hk⟩
      omega

/-- C4: for a pool of `n ≥ 1` workers over `[scanStart, e]`, every height a
worker visits lies in the range, and each height `x` of the range is
visited by worker `i` exactly when `i = (x - scanStart) % n` — so the
workers' height sets cover the range exactly once, with no gaps and no
height processed by two workers. -/
theorem worker_partition (scanStart e n : Nat) (hn : 1 ≤ n) :
    (∀ i x, x ∈ workerHeights scanStart e n i → scanStart ≤ x ∧ x ≤ e) ∧
    (∀ x, scanStart ≤ x → x ≤ e →
      ∀ i, i < n → (x ∈ workerHeights scanStart e n i ↔ i = (x - scanStart) % n)) := by
  constructor
  · intro i x hx
    rw [workerHeights, workerLoop_mem _ _ _ _ _ hn (by omega)] at hx
    obtain ⟨k, rfl, hk⟩ := hx
    refine ⟨?_, hk⟩
    have := Nat.le_add_right (scanStart + i) (k * n)
    omega
  · intro x hsx hxe i hi
    rw [workerHeights, workerLoop_mem _ _ _ _ _ hn (by omega)]
    constructor
    · rintro ⟨k, hxeq, hk⟩
      subst hxeq
      have h1 : scanStart + i + k * n - scanStart = i + k * n := by omega
      rw [h1, Nat.add_mul_mod_self_right, Nat.mod_eq_of_lt hi]
    · rintro rfl
      refine ⟨(x - scanStart) / n, ?_, hxe⟩
      have h2 := Nat.div_add_mod (x - scanStart) n
      calc x = scanStart + (x - scanStart) := by omega
        _ = scanStart + (n * ((x - scanStart) / n) + (x - scanStart) % n) := by rw [h2]
        _ = scanStart + (x - scanStart) % n + (x - scanStart) / n * n := by ring

/-- Witness for C4 at the spec's concrete example: range `[1000, 1009]`
with `n = 3` workers. -/
theorem worker_partition_witness :
    1 ≤ 3 ∧ (1003 ∈ workerHeights 1000 1009 3 0 ↔ 0 = (1003 - 1000) % 3) :=
  ⟨by decide,
   (worker_partition 1000 1009 3 (by decide)).2 1003 (by decide) (by decide) 0 (by decide)⟩

/-! ## Commit cursor invariant (C8) -/

theorem setLastProcessedBlockHeight_self (p : ScanProgressTable) (c : Chain) (h : Nat) :
    setLastProcessedBlockHeight p c h c
      = some (match p c with
              | some old => max old h
              | none => h) := by
  unfold setLastProcessedBlockHeight
  rw [if_pos rfl]

theorem advanceCommitLoop_good (scanStart e : Nat) (c : Chain) (done : Nat → Prop)
    (fuel : Nat) (s : ScanState) (hs : GoodScanState scanStart e c done s) :
    GoodScanState scanStart e c done (advanceCommitLoop scanStart e c fuel s) := by
  induction fuel generalizing s with
  | zero => exact hs
  | succ f ih =>
    simp only [advanceCommitLoop]
    by_cases hc : s.next ≤ e ∧ s.flags (s.next - scanStart) = true
    · rw [if_pos hc]
      apply ih
      obtain ⟨h1, h2, h3, h4, h5⟩ := hs
      unfold GoodScanState
      dsimp only
      refine ⟨by omega, by intro _; omega, h3, ?_, ?_⟩
      · intro k hk
        by_cases hkk : k < s.next - scanStart
        · exact h4 k hkk
        · have hke : k = s.next - scanStart := by omega
          rw [hke]
          exact hc.2
      · show setLastProcessedBlockHeight s.progress c s.next c
            = if scanStart < s.next + 1 then some (s.next + 1 - 1) else none
        rw [setLastProcessedBlockHeight_self, h5, if_pos (by omega : scanStart < s.next + 1)]
        by_cases hlt : scanStart < s.next
        · rw [if_pos hlt]
          show some (max (s.next - 1) s.next) = _
          simp only [Option.some.injEq]
          omega
        · rw [if_neg hlt]
          show some s.next = _
          simp only [Option.some.injEq]
          omega
    · rw [if_neg hc]
      exact hs

theorem completeHeight_good (scanStart e : Nat) (c : Chain) (done : Nat → Prop)
    (s : ScanState) (h : Nat) (hlo : scanStart ≤ h) (hhi : h ≤ e) (hdone : done h)
    (hs : GoodScanState scanStart e c done s) :
    GoodScanState scanStart e c done (completeHeight scanStart e c s h) := by
  unfold completeHeight advanceCommit
  apply advanceCommitLoop_good
  obtain ⟨h1, h2, h3, h4, h5⟩ := hs
  refine ⟨h1, h2, ?_, ?_, h5⟩
  · intro k hk
    by_cases hkk : k = h - scanStart
    · have heq : scanStart + k = h := by omega
      rw [heq]
      exact hdone
    · apply h3
      simpa [hkk] using hk
  · intro k hkk
    by_cases hke : k = h - scanStart
    · simp [hke]
    · show (if k = h - scanStart then true else s.flags k) = true
      rw [if_neg hke]
      exact h4 k hkk

theorem foldl_completeHeight_good (scanStart e : Nat) (c : Chain) (done : Nat → Prop)
    (t : List Nat) :
    ∀ s, GoodScanState scanStart e c done s →
      (∀ h ∈ t, (scanStart ≤ h ∧ h ≤ e) ∧ done h) →
      GoodScanState scanStart e c done (t.foldl (completeHeight scanStart e c) s) := by
  induction t with
  | nil =>
    intro s hs _
    exact hs
  | cons h t ih =>
    intro s hs hall
    have hh := hall h (List.mem_cons_self h t)
    exact ih _ (completeHeight_good scanStart e c done s h hh.1.1 hh.1.2 hh.2 hs)
      (fun x hx => hall x (List.mem_cons_of_mem h hx))

/-- C8: in a `runScan` run over `[scanStart, e]` in which the workers have
completed the heights `hs` (in any interleaved order), whenever the
persisted ScanProgress for the scanned chain reads `H`, every height of
`[scanStart, H]` has been completed: the committed cursor only ever covers
an unbroken done-prefix, so the persisted progress is a contiguous-prefix
lower bound with no unprocessed height at or below it. -/
theorem commit_cursor_contiguous_prefix (scanStart e : Nat) (c : Chain)
    (p0 : ScanProgressTable) (hp0 : p0 c = none) (hs : List Nat)
    (hr : ∀ h ∈ hs, scanStart ≤ h ∧ h ≤ e) :
    ∀ H, (runCompleted scanStart e c p0 hs).progress c = some H →
      scanStart ≤ H ∧ H ≤ e ∧ ∀ h, scanStart ≤ h → h ≤ H → h ∈ hs := by
  have hgood : GoodScanState scanStart e c (fun h => h ∈ hs)
      (runCompleted scanStart e c p0 hs) := by
    apply foldl_completeHeight_good
    · unfold GoodScanState
      dsimp only
      refine ⟨Nat.le_refl _, by omega, ?_, ?_, ?_⟩
      · intro k hk
        exact absurd hk (by simp)
      · intro k hk
        omega
      · simp [hp0]
    · intro h hh
      exact ⟨hr h hh, hh⟩
  intro H hH
  obtain ⟨h1, h2, h3, h4, h5⟩ := hgood
  rw [h5] at hH
  by_cases hlt : scanStart < (runCompleted scanStart e c p0 hs).next
  · rw [if_pos hlt] at hH
    injection hH with hH
    refine ⟨by omega, by have := h2 hlt; omega, ?_⟩
    intro h hsh hhH
    have hk : h - scanStart < (runCompleted scanStart e c p0 hs).next - scanStart := by
      omega
    have hflag := h4 (h - scanStart) hk
    have hdone := h3 (h - scanStart) hflag
    have heq : scanStart + (h - scanStart) = h := by omega
    rwa [heq] at hdone
  · rw [if_neg hlt] at hH
    exact absurd hH (by simp)

/-- Witness for C8: completing the single height `0` of range `[0, 1]`
commits cursor `0`, and the theorem instantiates to the processed prefix. -/
theorem commit_cursor_contiguous_prefix_witness :
    0 ≤ 0 ∧ 0 ≤ 1 ∧ ∀ h, 0 ≤ h → h ≤ 0 → h ∈ [0] :=
  commit_cursor_contiguous_prefix 0 1 Chain.consensus (fun _ => none) rfl [0]
    (by decide) 0 rfl

/-! ## Correlator membership lemmas -/

theorem mem_buildIterator (mode : AckMode) (dir : Direction) (rows : List SqlJoinRow)
    (r : MatchedTransferRow) :
    r ∈ buildIterator mode dir rows ↔
      ∃ jr ∈ rows, includeRow mode jr ∧ r = emitRow dir jr := by
  unfold buildIterator
  simp only [List.mem_filterMap]
  constructor
  · rintro ⟨jr, hjr, hopt⟩
    by_cases hinc : includeRow mode jr
    · rw [if_pos hinc] at hopt
      injection hopt with h
      exact ⟨jr, hjr, hinc, h.symm⟩
    · rw [if_neg hinc] at hopt
      cases hopt
  · rintro ⟨jr, hjr, hinc, rfl⟩
    exact ⟨jr, hjr, by rw [if_pos hinc]⟩

theorem mem_leftJoinOpt {β : Type} (l : List β) (x : Option β) :
    x ∈ (if l.isEmpty then ([none] : List (Option β)) else l.map some) ↔
      (match x with
       | some y => y ∈ l
       | none => l = []) := by
  by_cases h : l.isEmpty
  · rw [if_pos h]
    rw [List.isEmpty_iff] at h
    subst h
    cases x with
    | none => simp
    | some y => simp
  · rw [if_neg h]
    rw [List.isEmpty_iff] at h
    cases x with
    | none =>
      simp only [List.mem_map]
      constructor
      · rintro ⟨y, _, hy⟩
        cases hy
      · intro hl
        exact absurd hl h
    | some y =>
      simp [List.mem_map]

theorem mem_sqlJoinRows (src dst : Chain) (db : XdmStore) (jr : SqlJoinRow) :
    jr ∈ sqlJoinRows src dst db ↔
      ∃ i ∈ db.inits, i.source_chain = src ∧
        ∃ d a, destJoinedOpt db dst i d ∧ ackJoinedOpt db src i a ∧
          jr = mkJoinRow i d a := by
  unfold sqlJoinRows
  simp only [List.mem_flatMap, List.mem_filter, List.mem_map, decide_eq_true_eq]
  constructor
  · rintro ⟨i, ⟨hi, hsrc⟩, hmem⟩
    obtain ⟨d, hd, a, ha, rfl⟩ := hmem
    rw [mem_leftJoinOpt] at hd ha
    refine ⟨i, hi, hsrc, d, a, ?_, ?_, rfl⟩
    · cases d with
      | some drow =>
        obtain ⟨hdm, hcond⟩ := List.mem_filter.mp hd
        simp only [decide_eq_true_eq] at hcond
        exact ⟨hdm, hcond⟩
      | none =>
        intro drow hdm hcond
        have : drow ∈ db.dests.filter (fun d =>
            decide (d.channel_id = i.channel_id ∧ d.nonce = i.nonce ∧
              d.destination_chain = dst)) := by
          rw [List.mem_filter]
          exact ⟨hdm, decide_eq_true hcond⟩
        rw [hd] at this
        cases this
    · cases a with
      | some arow =>
        obtain ⟨ham, hcond⟩ := List.mem_filter.mp ha
        simp only [decide_eq_true_eq] at hcond
        exact ⟨ham, hcond⟩
      | none =>
        intro arow ham hcond
        have : arow ∈ db.acks.filter (fun a =>
            decide (a.channel_id = i.channel_id ∧ a.nonce = i.nonce ∧
              a.source_chain = src)) := by
          rw [List.mem_filter]
          exact ⟨ham, decide_eq_true hcond⟩
        rw [ha] at this
        cases this
  · rintro ⟨i, hi, hsrc, d, a, hd, ha, rfl⟩
    refine ⟨i, ⟨hi, hsrc⟩, d, ?_, a, ?_, rfl⟩
    · rw [mem_leftJoinOpt]
      cases d with
      | some drow =>
        exact List.mem_filter.mpr ⟨hd.1, decide_eq_true hd.2⟩
      | none =>
        exact List.filter_eq_nil_iff.mpr
          (fun drow hdm => by simp only [decide_eq_true_eq]; exact hd drow hdm)
    · rw [mem_leftJoinOpt]
      cases a with
      | some arow =>
        exact List.mem_filter.mpr ⟨ha.1, decide_eq_true ha.2⟩
      | none =>
        exact List.filter_eq_nil_iff.mpr
          (fun arow ham => by simp only [decide_eq_true_eq]; exact ha arow ham)

/-! ## Correlation correctness (C1) -/

theorem asBoolean_dest_present (i : SourceInitRow) (d : Option DestinationSuccessRow)
    (a : Option SourceAckRow) :
    asBoolean (mkJoinRow i d a).dest_present = d.isSome := by
  cases d with
  | none => rfl
  | some x => rfl

theorem ack_result_mkJoinRow (i : SourceInitRow) (d : Option DestinationSuccessRow)
    (a : Option SourceAckRow) :
    (mkJoinRow i d a).ack_result = a.map (fun x => x.result) :=
  rfl

/-- C1: for every SourceInit row of the chosen direction, the Correlator in
mode `both` emits a MatchedTransfer carrying that row's correlation key iff
a DestinationSuccess with the same `(channel_id, nonce)` exists on the
destination chain or an `Ok` SourceAck with the same key exists on the
source chain; a SourceInit satisfying neither predicate yields no output
record at all (the negation of the left side). -/
theorem correlation_both_mode (db : XdmStore) (dir : Direction) (i : SourceInitRow)
    (hi : i ∈ db.inits) (hsrc : i.source_chain = srcOf dir) :
    (∃ r ∈ matchOutput AckMode.both dir db,
        r.channel_id = i.channel_id ∧ r.nonce = i.nonce)
      ↔ (destExists db (dstOf dir) i.channel_id i.nonce
          ∨ ackOkExists db (srcOf dir) i.channel_id i.nonce) := by
  constructor
  · rintro ⟨r, hr, hch, hnn⟩
    rw [matchOutput, mem_buildIterator] at hr
    obtain ⟨jr, hjr, hinc, rfl⟩ := hr
    rw [mem_sqlJoinRows] at hjr
    obtain ⟨i', hi', hsrc', d, a, hd, ha, rfl⟩ := hjr
    have hch' : i'.channel_id = i.channel_id := hch
    have hnn' : i'.nonce = i.nonce := hnn
    simp only [includeRow] at hinc
    rcases hinc with ⟨h, -⟩ | ⟨h, -⟩ | ⟨-, hor⟩
    · exact absurd h (by decide)
    · exact absurd h (by decide)
    rcases hor with hdok | haok
    · cases d with
      | none =>
        rw [asBoolean_dest_present] at hdok
        cases hdok
      | some drow =>
        left
        simp only [destJoinedOpt] at hd
        obtain ⟨hdm, hc1, hc2, hc3⟩ := hd
        exact ⟨drow, hdm, hc1.trans hch', hc2.trans hnn', hc3⟩
    · cases a with
      | none =>
        rw [ack_result_mkJoinRow] at haok
        cases haok
      | some arow =>
        right
        rw [ack_result_mkJoinRow] at haok
        simp only [Option.map_some'] at haok
        injection haok with haok
        simp only [ackJoinedOpt] at ha
        obtain ⟨ham, hc1, hc2, hc3⟩ := ha
        exact ⟨arow, ham, hc1.trans hch', hc2.trans hnn', hc3, haok⟩
  · intro h
    have haopt : ∃ a, ackJoinedOpt db (srcOf dir) i a := by
      by_cases hex : ∃ ar ∈ db.acks, ar.channel_id = i.channel_id ∧
          ar.nonce = i.nonce ∧ ar.source_chain = srcOf dir
      · obtain ⟨ar, ham, hc⟩ := hex
        exact ⟨some ar, ham, hc⟩
      · refine ⟨none, ?_⟩
        intro ar ham hc
        exact hex ⟨ar, ham, hc⟩
    have hdopt : ∃ d, destJoinedOpt db (dstOf dir) i d := by
      by_cases hex : ∃ dr ∈ db.dests, dr.channel_id = i.channel_id ∧
          dr.nonce = i.nonce ∧ dr.destination_chain = dstOf dir
      · obtain ⟨dr, hdm, hc⟩ := hex
        exact ⟨some dr, hdm, hc⟩
      · refine ⟨none, ?_⟩
        intro dr hdm hc
        exact hex ⟨dr, hdm, hc⟩
    rcases h with ⟨dr, hdm, hc1, hc2, hc3⟩ | ⟨ar, ham, hc1, hc2, hc3, hok⟩
    · obtain ⟨a, ha⟩ := haopt
      refine ⟨emitRow dir (mkJoinRow i (some dr) a), ?_, rfl, rfl⟩
      rw [matchOutput, mem_buildIterator]
      refine ⟨mkJoinRow i (some dr) a, ?_, ?_, rfl⟩
      · rw [mem_sqlJoinRows]
        exact ⟨i, hi, hsrc, some dr, a, ⟨hdm, hc1, hc2, hc3⟩, ha, rfl⟩
      · simp only [includeRow]
        refine Or.inr (Or.inr ⟨trivial, Or.inl ?_⟩)
        rw [asBoolean_dest_present]
        rfl
    · obtain ⟨d, hdj⟩ := hdopt
      refine ⟨emitRow dir (mkJoinRow i d (some ar)), ?_, rfl, rfl⟩
      rw [matchOutput, mem_buildIterator]
      refine ⟨mkJoinRow i d (some ar), ?_, ?_, rfl⟩
      · rw [mem_sqlJoinRows]
        exact ⟨i, hi, hsrc, d, some ar, hdj, ⟨ham, hc1, hc2, hc3⟩, rfl⟩
      · simp only [includeRow]
        refine Or.inr (Or.inr ⟨trivial, Or.inr ?_⟩)
        rw [ack_result_mkJoinRow]
        simp [hok]

/-- Witness for C1 on the example store: the destination success exists, so
a record with the key `(1, "5")` is emitted under mode `both`. -/
theorem correlation_both_mode_witness :
    ∃ r ∈ matchOutput AckMode.both Direction.d2c exStore,
      r.channel_id = exInit.channel_id ∧ r.nonce = exInit.nonce :=
  (correlation_both_mode exStore Direction.d2c exInit (by decide) rfl).mpr
    (Or.inl ⟨exDest, by decide, rfl, rfl, rfl⟩)

/-! ## Amount precedence (C6) -/

/-- C6: under primary-key uniqueness of `source_inits` and
`destination_successes`, every MatchedTransfer emitted for an init row's key
carries the matching DestinationSuccess row's amount when such a row
exists, and the SourceInit row's amount otherwise. -/
theorem amount_precedence (db : XdmStore) (dir : Direction) (mode : AckMode)
    (i : SourceInitRow) (hi : i ∈ db.inits) (hsrc : i.source_chain = srcOf dir)
    (hinodup : (db.inits.map initKey).Nodup)
    (hdnodup : (db.dests.map destKey).Nodup)
    (r : MatchedTransferRow) (hr : r ∈ matchOutput mode dir db)
    (hch : r.channel_id = i.channel_id) (hnn : r.nonce = i.nonce) :
    (∀ d ∈ db.dests, d.channel_id = i.channel_id → d.nonce = i.nonce →
        d.destination_chain = dstOf dir → r.amount = d.amount) ∧
    (¬ destExists db (dstOf dir) i.channel_id i.nonce → r.amount = i.amount) := by
  rw [matchOutput, mem_buildIterator] at hr
  obtain ⟨jr, hjr, hinc, rfl⟩ := hr
  rw [mem_sqlJoinRows] at hjr
  obtain ⟨i', hi', hsrc', d, a, hd, ha, rfl⟩ := hjr
  have hch' : i'.channel_id = i.channel_id := hch
  have hnn' : i'.nonce = i.nonce := hnn
  have hieq : i' = i := by
    apply List.inj_on_of_nodup_map hinodup hi' hi
    unfold initKey
    rw [hch', hnn', hsrc', hsrc]
  subst hieq
  constructor
  · intro d' hd' hc1 hc2 hc3
    cases d with
    | none =>
      simp only [destJoinedOpt] at hd
      exact absurd ⟨hc1, hc2, hc3⟩ (hd d' hd')
    | some drow =>
      simp only [destJoinedOpt] at hd
      obtain ⟨hdm, hk1, hk2, hk3⟩ := hd
      have hdeq : drow = d' := by
        apply List.inj_on_of_nodup_map hdnodup hdm hd'
        unfold destKey
        rw [hk1, hk2, hk3, hc1, hc2, hc3]
      subst hdeq
      rfl
  · intro hne
    cases d with
    | none => rfl
    | some drow =>
      simp only [destJoinedOpt] at hd
      exact absurd ⟨drow, hd.1, hd.2.1, hd.2.2.1, hd.2.2.2⟩ hne

/-- Witness for C6 on the example store: the emitted record's amount is the
destination row's `"95"`, not the init row's `"100"`. -/
theorem amount_precedence_witness :
    (emitRow Direction.d2c (mkJoinRow exInit (some exDest) (some exAckOk))).amount
      = exDest.amount :=
  (amount_precedence exStore Direction.d2c AckMode.destOnly exInit (by decide) rfl
      (by decide) (by decide)
      (emitRow Direction.d2c (mkJoinRow exInit (some exDest) (some exAckOk)))
      (by decide) rfl rfl).1
    exDest (by decide) rfl rfl rfl

/-! ## confirmed_by reflects store contents (C9) -/

/-- C9: for every record the Correlator emits — under any confirmation mode —
`confirmed_by` is determined purely by which confirmations exist in the
store for the record's key: `both` iff both a DestinationSuccess and an
`Ok` SourceAck exist, `dest` iff only the former, `ack` iff only the
latter.  Consequently under `ack-only` a record never reports `dest`, and
under `dest-only` a record can still report `both`. -/
theorem confirmedBy_from_store (db : XdmStore) (dir : Direction) (mode : AckMode)
    (hanodup : (db.acks.map ackKey).Nodup)
    (r : MatchedTransferRow) (hr : r ∈ matchOutput mode dir db) :
    ((r.confirmed_by = ConfirmedBy.both ↔
        destExists db (dstOf dir) r.channel_id r.nonce ∧
          ackOkExists db (srcOf dir) r.channel_id r.nonce) ∧
     (r.confirmed_by = ConfirmedBy.dest ↔
        destExists db (dstOf dir) r.channel_id r.nonce ∧
          ¬ ackOkExists db (srcOf dir) r.channel_id r.nonce) ∧
     (r.confirmed_by = ConfirmedBy.ack ↔
        ¬ destExists db (dstOf dir) r.channel_id r.nonce ∧
          ackOkExists db (srcOf dir) r.channel_id r.nonce)) ∧
    (mode = AckMode.ackOnly → r.confirmed_by ≠ ConfirmedBy.dest) ∧
    (∃ db' r', r' ∈ matchOutput AckMode.destOnly Direction.d2c db' ∧
        r'.confirmed_by = ConfirmedBy.both) := by
  rw [matchOutput, mem_buildIterator] at hr
  obtain ⟨jr, hjr, hinc, rfl⟩ := hr
  rw [mem_sqlJoinRows] at hjr
  obtain ⟨i', hi', hsrc', d, a, hd, ha, rfl⟩ := hjr
  have hch : (emitRow dir (mkJoinRow i' d a)).channel_id = i'.channel_id := rfl
  have hnn : (emitRow dir (mkJoinRow i' d a)).nonce = i'.nonce := rfl
  have hdiff : asBoolean (mkJoinRow i' d a).dest_present = true ↔
      destExists db (dstOf dir) i'.channel_id i'.nonce := by
    rw [asBoolean_dest_present]
    cases d with
    | none =>
      simp only [Option.isSome_none, Bool.false_eq_true, false_iff]
      rintro ⟨drow, hdm, hc⟩
      simp only [destJoinedOpt] at hd
      exact hd drow hdm hc
    | some drow =>
      simp only [Option.isSome_some, true_iff]
      simp only [destJoinedOpt] at hd
      exact ⟨drow, hd.1, hd.2.1, hd.2.2.1, hd.2.2.2⟩
  have haiff : (mkJoinRow i' d a).ack_result = some "Ok" ↔
      ackOkExists db (srcOf dir) i'.channel_id i'.nonce := by
    rw [ack_result_mkJoinRow]
    cases a with
    | none =>
      simp only [Option.map_none']
      constructor
      · intro h
        cases h
      · rintro ⟨arow, ham, hc1, hc2, hc3, hokr⟩
        simp only [ackJoinedOpt] at ha
        exact absurd ⟨hc1, hc2, hc3⟩ (ha arow ham)
    | some arow =>
      simp only [Option.map_some', Option.some.injEq]
      simp only [ackJoinedOpt] at ha
      obtain ⟨ham, hk1, hk2, hk3⟩ := ha
      constructor
      · intro hokr
        exact ⟨arow, ham, hk1, hk2, hk3, hokr⟩
      · rintro ⟨arow2, ham2, hc1, hc2, hc3, hokr2⟩
        have heq : arow = arow2 := by
          apply List.inj_on_of_nodup_map hanodup ham ham2
          unfold ackKey
          rw [hk1, hk2, hk3, hc1, hc2, hc3]
        rw [heq]
        exact hokr2
  have hcb : (emitRow dir (mkJoinRow i' d a)).confirmed_by =
      (if asBoolean (mkJoinRow i' d a).dest_present ∧
          (mkJoinRow i' d a).ack_result = some "Ok" then ConfirmedBy.both
       else if asBoolean (mkJoinRow i' d a).dest_present then ConfirmedBy.dest
       else ConfirmedBy.ack) := rfl
  rw [hch, hnn]
  refine ⟨?_, ?_, ?_⟩
  · have hincor : asBoolean (mkJoinRow i' d a).dest_present = true ∨
        (mkJoinRow i' d a).ack_result = some "Ok" := by
      simp only [includeRow] at hinc
      rcases hinc with ⟨-, h⟩ | ⟨-, h⟩ | ⟨-, h⟩
      · exact Or.inl h
      · exact Or.inr h
      · exact h
    by_cases hD : asBoolean (mkJoinRow i' d a).dest_present = true
    · by_cases hA : (mkJoinRow i' d a).ack_result = some "Ok"
      · rw [← hdiff, ← haiff]
        simp [hcb, hD, hA]
      · rw [← hdiff, ← haiff]
        simp [hcb, hD, hA]
    · by_cases hA : (mkJoinRow i' d a).ack_result = some "Ok"
      · rw [← hdiff, ← haiff]
        simp [hcb, hD, hA]
      · rcases hincor with h | h
        · exact absurd h hD
        · exact absurd h hA
  · intro hmode
    subst hmode
    simp only [includeRow] at hinc
    rcases hinc with ⟨h, -⟩ | ⟨-, hA⟩ | ⟨h, -⟩
    · exact absurd h (by decide)
    · by_cases hD : asBoolean (mkJoinRow i' d a).dest_present = true <;>
        simp [hcb, hD, hA]
    · exact absurd h (by decide)
  · exact ⟨exStore, emitRow Direction.d2c (mkJoinRow exInit (some exDest) (some exAckOk)),
      by decide, by decide⟩

/-- Witness for C9 on the example store under mode `dest-only`: the emitted
record reports `both` because both confirmations exist. -/
theorem confirmedBy_from_store_witness :
    (emitRow Direction.d2c (mkJoinRow exInit (some exDest) (some exAckOk))).confirmed_by
        = ConfirmedBy.both ↔
      destExists exStore (dstOf Direction.d2c)
          (emitRow Direction.d2c
            (mkJoinRow exInit (some exDest) (some exAckOk))).channel_id
          (emitRow Direction.d2c
            (mkJoinRow exInit (some exDest) (some exAckOk))).nonce ∧
        ackOkExists exStore (srcOf Direction.d2c)
          (emitRow Direction.d2c
            (mkJoinRow exInit (some exDest) (some exAckOk))).channel_id
          (emitRow Direction.d2c
            (mkJoinRow exInit (some exDest) (some exAckOk))).nonce :=
  (confirmedBy_from_store exStore Direction.d2c AckMode.destOnly (by decide)
      (emitRow Direction.d2c (mkJoinRow exInit (some exDest) (some exAckOk)))
      (by decide)).1.1

/-! ## Extraction guard (C3) -/

/-- C3: in the guarded `processXdmEvents`, an `OutgoingTransferInitiated`
event whose resolved extrinsic index falls outside the block's extrinsic
count, or whose origin extrinsic is unsigned or has an unresolvable signer,
leaves all three event tables untouched and appends exactly one EventFailure
diagnostic (reason `extrinsic_index_out_of_range` when the index guard
fired, `unsigned_or_signer_unavailable` otherwise). -/
theorem oti_guard_rejects (ctx : BlockCtx) (db : XdmDb) (e : EventRecord)
    (hsec : e.evSection = "transporter")
    (hmeth : e.evMethod = "OutgoingTransferInitiated")
    (hbad : (∃ idx, resolvedExtrinsicIndex e = some idx ∧ ctx.extrinsics.length ≤ idx)
            ∨ signerOf (originExtrinsic ctx.extrinsics e) = "") :
    processOneEvent ctx db e =
      { db with failures := db.failures ++
          [{ chain := ctx.chain
             block_height := ctx.blockHeight
             block_hash := ctx.blockHash
             extrinsic_index := resolvedExtrinsicIndex e
             esection := e.evSection
             emethod := e.evMethod
             reason := if (match resolvedExtrinsicIndex e with
                           | some idx => decide (ctx.extrinsics.length ≤ idx)
                           | none => false)
                       then "extrinsic_index_out_of_range"
                       else "unsigned_or_signer_unavailable" }] } := by
  simp only [processOneEvent]
  rw [if_pos ⟨hsec, hmeth⟩]
  by_cases hg : (match resolvedExtrinsicIndex e with
                 | some idx => decide (ctx.extrinsics.length ≤ idx)
                 | none => false) = true
  · rw [if_pos hg, if_pos hg]
    rfl
  · rw [if_neg hg, if_neg hg]
    have hsig : signerOf (originExtrinsic ctx.extrinsics e) = "" := by
      rcases hbad with ⟨idx, hidx, hlen⟩ | hsig
      · exact absurd (by rw [hidx]; exact decide_eq_true hlen) hg
      · exact hsig
    rw [if_pos hsig]
    rfl

/-- Witness for C3: the event claims extrinsic index 3 in a block with no
extrinsics; the step only appends the out-of-range diagnostic. -/
theorem oti_guard_rejects_witness :
    processOneEvent exCtxNoExt exDbEmpty exOtiEvent3 =
      { exDbEmpty with failures :=
          [{ chain := Chain.domain, block_height := 10, block_hash := "hashA"
             extrinsic_index := some 3
             esection := "transporter", emethod := "OutgoingTransferInitiated"
             reason := "extrinsic_index_out_of_range" }] } := by
  rw [oti_guard_rejects exCtxNoExt exDbEmpty exOtiEvent3 rfl rfl
    (Or.inl ⟨3, rfl, by decide⟩)]
  rfl

/-! ## asNumber totality and silent zero coercion (C10) -/

/-- C10: `asNumber` is a total function — when its argument offers no
`toNumber()` and its string form does not parse (`Number(..)` is `NaN`), it
returns `0` instead of failing — and the guarded extraction, given an
`OutgoingTransferInitiated` event passing the index and signer guards whose
chain-id and channel-id payloads both coerce to `0`, still upserts the
SourceInit row with `dst_chain_id = 0` and `channel_id = 0` and records no
diagnostic. -/
theorem asNumber_total_coerces_zero :
    (∀ v : JsVal, jsToNumber v = none → jsNumberSem v = none → asNumber v = 0) ∧
    (∀ (ctx : BlockCtx) (db : XdmDb) (e : EventRecord),
      e.evSection = "transporter" → e.evMethod = "OutgoingTransferInitiated" →
      ∀ idx, resolvedExtrinsicIndex e = some idx → idx < ctx.extrinsics.length →
      signerOf (originExtrinsic ctx.extrinsics e) ≠ "" →
      asNumber e.chainIdArg = 0 → asNumber e.channelIdArg = 0 →
      (processOneEvent ctx db e).failures = db.failures ∧
      (processOneEvent ctx db e).dests = db.dests ∧
      (processOneEvent ctx db e).acks = db.acks ∧
      (processOneEvent ctx db e).inits = upsertSourceInit db.inits
        { source_chain := ctx.chain
          dst_chain_id := 0
          channel_id := 0
          nonce := asString e.nonceArg
          from_address := signerOf (originExtrinsic ctx.extrinsics e)
          amount := otiAmount (originExtrinsic ctx.extrinsics e) e
          source_block_height := ctx.blockHeight
          source_block_hash := ctx.blockHash
          source_extrinsic_index := some (idx : Int) }) := by
  constructor
  · intro v h1 h2
    unfold asNumber
    rw [h1, h2]
  · intro ctx db e hsec hmeth idx hidx hlen hsig hchain hchan
    have hguard : (match resolvedExtrinsicIndex e with
        | some i => decide (ctx.extrinsics.length ≤ i)
        | none => false) = false := by
      rw [hidx]
      exact decide_eq_false (by omega)
    have hres : processOneEvent ctx db e =
        { db with
          inits :=
            upsertSourceInit db.inits
              (otiRow ctx e (signerOf (originExtrinsic ctx.extrinsics e))
                (otiAmount (originExtrinsic ctx.extrinsics e) e)
                (resolvedExtrinsicIndex e)) } := by
      simp only [processOneEvent]
      rw [if_pos ⟨hsec, hmeth⟩, if_neg (by rw [hguard]; simp), if_neg hsig]
    rw [hres]
    refine ⟨rfl, rfl, rfl, ?_⟩
    show upsertSourceInit db.inits _ = upsertSourceInit db.inits _
    congr 1
    simp [otiRow, hchain, hchan, hidx]

/-- Witness for C10: the string `"abc"` coerces to `0`, and the event with
unparsable string ids at a signed extrinsic is still upserted with zeroed
ids and no diagnostic. -/
theorem asNumber_total_coerces_zero_witness :
    asNumber (JsVal.str "abc") = 0 ∧
    (processOneEvent exCtxSigned exDbEmpty exOtiBadIds).failures = exDbEmpty.failures ∧
    (processOneEvent exCtxSigned exDbEmpty exOtiBadIds).inits = upsertSourceInit
      exDbEmpty.inits
      { source_chain := Chain.domain
        dst_chain_id := 0
        channel_id := 0
        nonce := "5"
        from_address := "addrA"
        amount := "100"
        source_block_height := 10
        source_block_hash := "hashA"
        source_extrinsic_index := some 0 } := by
  have h2 := asNumber_total_coerces_zero.2 exCtxSigned exDbEmpty exOtiBadIds rfl rfl
    0 rfl (by decide) (by decide) (by decide) (by decide)
  refine ⟨asNumber_total_coerces_zero.1 (JsVal.str "abc") rfl rfl, h2.1, ?_⟩
  rw [h2.2.2.2]
  rfl

/-! ## Segment deduplication (C5) -/

/-- C5 counterexample: with `eventCount = 150` the `chain.ts` `getEventsAt`
fetches segments 0 and 1; when the same event record sits in both segments
the returned flattened list contains it twice — the segmented path of this
variant performs no deduplication (as its own comment states). -/
theorem getEventsAtSegmented_keeps_duplicates :
    getEventsAtSegmented 150 (fun _ => [{ evSection := "transporter"
                                          evMethod := "OutgoingTransferInitiated"
                                          dataStr := "d", phaseStr := "p" }])
      = [{ evSection := "transporter", evMethod := "OutgoingTransferInitiated"
           dataStr := "d", phaseStr := "p" },
         { evSection := "transporter", evMethod := "OutgoingTransferInitiated"
           dataStr := "d", phaseStr := "p" }] ∧
    ¬ (getEventsAtSegmented 150 (fun _ => [{ evSection := "transporter"
                                             evMethod := "OutgoingTransferInitiated"
                                             dataStr := "d", phaseStr := "p" }])).Nodup := by
  constructor
  · rfl
  · decide

theorem dedupEventsAux_nodup (l : List SegEvent) :
    ∀ seen : List String,
      ((dedupEventsAux l seen).map segEventKey).Nodup ∧
      (∀ k ∈ (dedupEventsAux l seen).map segEventKey, k ∉ seen) := by
  induction l with
  | nil =>
    intro seen
    exact ⟨List.nodup_nil, by simp [dedupEventsAux]⟩
  | cons e rest ih =>
    intro seen
    simp only [dedupEventsAux]
    by_cases h : segEventKey e ∈ seen
    · rw [if_pos h]
      exact ih seen
    · rw [if_neg h]
      obtain ⟨hnd, hnotin⟩ := ih (segEventKey e :: seen)
      refine ⟨?_, ?_⟩
      · simp only [List.map_cons, List.nodup_cons]
        exact ⟨fun hk => hnotin _ hk (List.mem_cons_self _ _), hnd⟩
      · intro k hk hkseen
        simp only [List.map_cons, List.mem_cons] at hk
        rcases hk with rfl | hk
        · exact h hkseen
        · exact hnotin k hk (List.mem_cons_of_mem _ hkseen)

/-- C5 amended: only the `node-based/chain.ts` `getEventsAt` deduplicates
overlapping segment content — whenever its segmented path found any events,
the returned list contains no two records with the same
`section|method|data|phase` key (and hence no duplicate records); the
`chain.ts` variant used next to `scan-runner.ts` returns the plain
concatenation of segments `0..lastIndex` without deduplication. -/
theorem getEventsAtNode_dedups (countOpt : Option Nat) (segs : Nat → List SegEvent)
    (entries : Option (List (List SegEvent))) (maxSegments : Nat)
    (legacy : List SegEvent)
    (hne : nodeFlattened countOpt segs entries maxSegments ≠ []) :
    ((getEventsAtNode countOpt segs entries maxSegments legacy).map segEventKey).Nodup ∧
    (getEventsAtNode countOpt segs entries maxSegments legacy).Nodup := by
  have hstep : getEventsAtNode countOpt segs entries maxSegments legacy
      = dedupEvents (nodeFlattened countOpt segs entries maxSegments) := by
    unfold getEventsAtNode
    rw [if_neg (by simpa using hne)]
  rw [hstep]
  have h := dedupEventsAux_nodup (nodeFlattened countOpt segs entries maxSegments) []
  exact ⟨h.1, h.1.of_map⟩

/-- Witness for C5 (amended): the node-based variant collapses the same
overlapping segment content to a single record. -/
theorem getEventsAtNode_dedups_witness :
    (((getEventsAtNode (some 150) (fun _ => [{ evSection := "transporter"
                                               evMethod := "OutgoingTransferInitiated"
                                               dataStr := "d", phaseStr := "p" }])
        none 2048 []).map segEventKey).Nodup) ∧
    ((getEventsAtNode (some 150) (fun _ => [{ evSection := "transporter"
                                              evMethod := "OutgoingTransferInitiated"
                                              dataStr := "d", phaseStr := "p" }])
        none 2048 []).Nodup) :=
  getEventsAtNode_dedups (some 150)
    (fun _ => [{ evSection := "transporter", evMethod := "OutgoingTransferInitiated"
                 dataStr := "d", phaseStr := "p" }])
    none 2048 [] (by decide)
